import Mathlib

/-!
Shallow embedding of the genetic-drift simulator in `app.py`
(Wright–Fisher model: `make_initial_population`, `generate_next`,
`calc_freq0`, and the Streamlit init/step button handlers), together with
theorems settling the specification claims.

Modelling conventions:
* Python's `random.Random` is modelled as an abstract deterministic
  generator: an underlying stream of natural numbers plus a position.
  `_randbelow n` reads the next stream value modulo `n`.  `shuffle` is the
  Fisher–Yates loop CPython uses; `sample(pop, 2)` is modelled with
  CPython's pool-copy branch (two draws yielding two distinct positions),
  and `choice` as `seq[_randbelow (len seq)]` with an IndexError on an
  empty sequence, exactly as in CPython.
* Python floats are modelled as rationals; `int x` (truncation toward
  zero) is `truncQ`.
* A Python exception is an `Except PyErr` result; `[x] * n` with a
  negative `n` is the empty list, modelled with `Int.toNat`.
-/

open List

/-- Allele values are plain naturals in the source (`0` / `1` literals). -/
abbrev Allele := Nat

/-- A genotype in the source is a Python list of alleles (e.g. `[0, 1]`). -/
abbrev Genotype := List Allele

/-- A population is a Python list of genotypes. -/
abbrev Population := List Genotype

/-- Exceptions the modelled Python code can raise: `ValueError` from
`random.sample`, `IndexError` from `random.choice` on an empty sequence or
an out-of-range list subscript. -/
inductive PyErr where
  | valueError : PyErr
  | indexError : PyErr
deriving DecidableEq, Repr

/-- Abstract deterministic RNG: an infinite stream of naturals and the
current read position.  A CPython `random.Random(seed)` instance is one
such stream, determined by the seed. -/
structure RNG where
  stream : Nat → Nat
  pos : Nat

/-- Python's `_randbelow n`: read one stream value, reduce it modulo `n`.
For `n > 0` the result is `< n`; CPython's `_randbelow 0` returns `0`
without consuming state, which the claims never rely on. -/
def randbelow (n : Nat) (r : RNG) : Nat × RNG :=
  (r.stream r.pos % n, { r with pos := r.pos + 1 })

/-- Truncation toward zero of a rational, as Python's `int(x)` on floats. -/
def truncQ (x : ℚ) : Int :=
  if 0 ≤ x then ⌊x⌋ else ⌈x⌉

/-- One Fisher–Yates swap `x[i], x[j] = x[j], x[i]` on a list (out-of-range
indices leave the list unchanged, which the shuffle loop never hits). -/
def listSwap (l : Population) (i j : Nat) : Population :=
  let x := l.getD i []
  let y := l.getD j []
  (l.set i y).set j x

/-- The CPython `shuffle` loop `for i in reversed(range(1, len(x)))`:
the argument counts how many indices `i = fuel, fuel-1, …, 1` remain,
each drawing `j = _randbelow (i+1)` and swapping positions `i` and `j`. -/
def shuffleGo : Nat → Population → RNG → Population × RNG
  | 0, l, r => (l, r)
  | i + 1, l, r =>
    let d := randbelow (i + 2) r
    shuffleGo i (listSwap l (i + 1) d.1) d.2

/-- Model of `rng.shuffle(pop)` (value-level: returns the permuted list). -/
def shuffle (l : Population) (r : RNG) : Population × RNG :=
  shuffleGo (l.length - 1) l r

/-- The source's `make_initial_population(N, p00, p01, p11, rng)`:
`n00 = int(N*p00)`, `n01 = int(N*p01)`, `n11 = N - n00 - n01`, build
`n00` copies of `[0,0]`, `n01` of `[0,1]`, `n11` of `[1,1]` (a negative
count yields no copies, as Python list repetition does), then shuffle.
`p11` is accepted but never read, exactly as in the source. -/
def make_initial_population (N : Nat) (p00 p01 p11 : ℚ) (r : RNG) :
    Population × RNG :=
  let _ := p11
  let n00 : Int := truncQ ((N : ℚ) * p00)
  let n01 : Int := truncQ ((N : ℚ) * p01)
  let n11 : Int := (N : Int) - n00 - n01
  let pop : Population :=
    List.replicate n00.toNat [0, 0] ++ List.replicate n01.toNat [0, 1] ++
      List.replicate n11.toNat [1, 1]
  shuffle pop r

/-- Model of `rng.sample(population, 2)`: CPython first raises
`ValueError` unless `0 ≤ k ≤ n`; then (pool-copy branch) draws
`j1 = _randbelow n`, replaces `pool[j1]` by `pool[n-1]`, and draws
`j2 = _randbelow (n-1)`, so the two picks are at distinct positions of
the original list. -/
def sample2 (pop : Population) (r : RNG) :
    Except PyErr ((Genotype × Genotype) × RNG) :=
  if 2 ≤ pop.length then
    let n := pop.length
    let d1 := randbelow n r
    let d2 := randbelow (n - 1) d1.2
    let g1 := pop.getD d1.1 []
    let g2 := if d2.1 = d1.1 then pop.getD (n - 1) [] else pop.getD d2.1 []
    .ok ((g1, g2), d2.2)
  else
    .error .valueError

/-- Model of `rng.choice(seq)` = `seq[_randbelow (len seq)]`; an
`IndexError` on an empty sequence (CPython's `_randbelow 0` returns `0`
without consuming state, and the subscript then fails). -/
def choice (g : Genotype) (r : RNG) : Except PyErr (Allele × RNG) :=
  if g.length = 0 then
    .error .indexError
  else
    let d := randbelow g.length r
    .ok (g.getD d.1 0, d.2)

/-- The loop body of `generate_next`, iterated `k` times: each offspring
samples two parents, takes one allele from each, and is the two-element
list `[a1, a2]`.  Offspring are produced in loop order. -/
def generateNextGo (pop : Population) : Nat → RNG →
    Except PyErr (Population × RNG)
  | 0, r => .ok ([], r)
  | k + 1, r =>
    match sample2 pop r with
    | .error e => .error e
    | .ok ((p1, p2), r1) =>
      match choice p1 r1 with
      | .error e => .error e
      | .ok (a1, r2) =>
        match choice p2 r2 with
        | .error e => .error e
        | .ok (a2, r3) =>
          match generateNextGo pop k r3 with
          | .error e => .error e
          | .ok (rest, r4) => .ok ([a1, a2] :: rest, r4)

/-- The source's `generate_next(population, rng)`: `len(population)`
offspring, each from two distinct parents and one allele of each. -/
def generate_next (pop : Population) (r : RNG) :
    Except PyErr (Population × RNG) :=
  generateNextGo pop pop.length r

/-- The zero-allele count `sum(1 for g in population for a in g if a == 0)`. -/
def zeroAlleles (pop : Population) : Nat :=
  (pop.map (fun g => g.count 0)).sum

/-- The source's `calc_freq0(population)`: zero-allele count over
`2 * len(population)`, as an exact rational. -/
def calc_freq0 (pop : Population) : ℚ :=
  let total : ℚ := 2 * pop.length
  let n0 : ℚ := zeroAlleles pop
  n0 / total

/-- The source's `replicates = 10` (fixed). -/
def replicates : Nat := 10

/-- The Streamlit session state the handlers read and write:
`st.session_state.populations`, `st.session_state.freq_history`,
`st.session_state.generation`. -/
structure SimState where
  populations : List Population
  freq_history : List (List ℚ)
  generation : Nat

/-- The `init_btn` loop body, iterated `k` times: build a population,
append it and the one-element history `[calc_freq0 pop]`. -/
def initGo (N : Nat) (p00 p01 p11 : ℚ) : Nat → RNG →
    List Population × List (List ℚ) × RNG
  | 0, r => ([], [], r)
  | k + 1, r =>
    let b := make_initial_population N p00 p01 p11 r
    let rest := initGo N p00 p01 p11 k b.2
    (b.1 :: rest.1, [calc_freq0 b.1] :: rest.2.1, rest.2.2)

/-- The `init_btn` handler: reset, then `replicates` iterations of the
build-and-record loop, generation counter `0`. -/
def initState (N : Nat) (p00 p01 p11 : ℚ) (r : RNG) : SimState × RNG :=
  let t := initGo N p00 p01 p11 replicates r
  ({ populations := t.1, freq_history := t.2.1, generation := 0 }, t.2.2)

/-- The inner `for i in range(replicates)` loop of the `step_btn` handler,
walking the two session lists in parallel position by position:
`populations[i] = generate_next(populations[i], rng)` then
`freq_history[i].append(calc_freq0(populations[i]))`.  Running past the
end of either list is Python's `IndexError` (`populations[i]` is read
before `freq_history[i]`). -/
def stepGenGo : Nat → List Population → List (List ℚ) → RNG →
    Except PyErr (List Population × List (List ℚ) × RNG)
  | 0, pops, hists, r => .ok (pops, hists, r)
  | _ + 1, [], _, _ => .error .indexError
  | k + 1, pop :: pops, hists, r =>
    match generate_next pop r with
    | .error e => .error e
    | .ok (pop1, r1) =>
      match hists with
      | [] => .error .indexError
      | hist :: hists1 =>
        match stepGenGo k pops hists1 r1 with
        | .error e => .error e
        | .ok (pops2, hists2, r2) =>
          .ok (pop1 :: pops2, (hist ++ [calc_freq0 pop1]) :: hists2, r2)

/-- The outer `for _ in range(10)` loop of the `step_btn` handler: each
pass advances every replicate one generation and then increments the
shared generation counter. -/
def stepBatchGo : Nat → SimState → RNG → Except PyErr (SimState × RNG)
  | 0, s, r => .ok (s, r)
  | k + 1, s, r =>
    match stepGenGo replicates s.populations s.freq_history r with
    | .error e => .error e
    | .ok (pops, hists, r1) =>
      stepBatchGo k
        { populations := pops, freq_history := hists,
          generation := s.generation + 1 } r1

/-- The `step_btn` handler: guarded by
`if step_btn and st.session_state.populations:` — a no-op when the
populations list is empty, otherwise ten generations for all replicates. -/
def stepState (s : SimState) (r : RNG) : Except PyErr (SimState × RNG) :=
  if s.populations = [] then .ok (s, r)
  else stepBatchGo 10 s r

/-- A run of the app's core: seed the RNG (a seed determines a stream,
position 0), initialize once, then `b` presses of the step button;
returns the final session state. -/
def runSim (stream : Nat → Nat) (N : Nat) (p00 p01 p11 : ℚ) (b : Nat) :
    Except PyErr SimState :=
  let t := initState N p00 p01 p11 { stream := stream, pos := 0 }
  (go b t.1 t.2).map Prod.fst
where
  /-- Iterate the step handler `b` times, threading state and RNG. -/
  go : Nat → SimState → RNG → Except PyErr (SimState × RNG)
    | 0, s, r => .ok (s, r)
    | k + 1, s, r =>
      match stepState s r with
      | .error e => .error e
      | .ok (s1, r1) => go k s1 r1

/-- A concrete RNG for witnesses: the all-zero stream at position 0. -/
def rng0 : RNG :=
  { stream := fun _ => 0, pos := 0 }

/-- The session-state invariant maintained by the handlers: ten replicate
populations and ten histories, every population of the initialization
size `N` with two-allele genotypes, and every history one entry per
generation including generation 0. -/
def GoodState (N : Nat) (s : SimState) : Prop :=
  s.populations.length = replicates ∧
  s.freq_history.length = replicates ∧
  (∀ p ∈ s.populations, p.length = N ∧ ∀ g ∈ p, g.length = 2) ∧
  (∀ h ∈ s.freq_history, h.length = s.generation + 1)

/-! ### Permutation facts about the Fisher–Yates shuffle -/

/-- Replacing the element at an in-range position and re-consing the old
value yields a permutation of consing the new value. -/
theorem get_cons_set_perm {α : Type _} : ∀ (t : List α) (m : Nat) (a : α),
    (h : m < t.length) → t.get ⟨m, h⟩ :: t.set m a ~ a :: t := by
  intro t
  induction t with
  | nil => intro m a h; simp at h
  | cons b t2 ih =>
    intro m a h
    cases m with
    | zero => simpa using List.Perm.swap a b t2
    | succ k =>
      have h2 : k < t2.length := Nat.lt_of_succ_lt_succ (by simpa using h)
      have hget : (b :: t2).get ⟨k + 1, h⟩ = t2.get ⟨k, h2⟩ := rfl
      rw [hget, List.set_cons_succ]
      calc t2.get ⟨k, h2⟩ :: b :: t2.set k a
          ~ b :: t2.get ⟨k, h2⟩ :: t2.set k a := List.Perm.swap b _ _
        _ ~ b :: a :: t2 := (ih k a h2).cons b
        _ ~ a :: b :: t2 := List.Perm.swap a b t2

/-- A double `set` realising a transposition of two in-range positions is
a permutation. -/
theorem set_set_perm {α : Type _} : ∀ (l : List α) (i j : Nat)
    (hi : i < l.length) (hj : j < l.length),
    (l.set i (l.get ⟨j, hj⟩)).set j (l.get ⟨i, hi⟩) ~ l := by
  intro l
  induction l with
  | nil => intro i j hi _; simp at hi
  | cons a t ih =>
    intro i j hi hj
    cases i with
    | zero =>
      cases j with
      | zero => simp
      | succ m =>
        have hm : m < t.length := Nat.lt_of_succ_lt_succ (by simpa using hj)
        have hg : (a :: t).get ⟨m + 1, hj⟩ = t.get ⟨m, hm⟩ := rfl
        have hg0 : (a :: t).get ⟨0, hi⟩ = a := rfl
        rw [hg, hg0, List.set_cons_zero, List.set_cons_succ]
        exact get_cons_set_perm t m a hm
    | succ k =>
      cases j with
      | zero =>
        have hk : k < t.length := Nat.lt_of_succ_lt_succ (by simpa using hi)
        have hg : (a :: t).get ⟨k + 1, hi⟩ = t.get ⟨k, hk⟩ := rfl
        have hg0 : (a :: t).get ⟨0, hj⟩ = a := rfl
        rw [hg, hg0, List.set_cons_succ, List.set_cons_zero]
        exact get_cons_set_perm t k a hk
      | succ m =>
        have hk : k < t.length := Nat.lt_of_succ_lt_succ (by simpa using hi)
        have hm : m < t.length := Nat.lt_of_succ_lt_succ (by simpa using hj)
        have hg1 : (a :: t).get ⟨k + 1, hi⟩ = t.get ⟨k, hk⟩ := rfl
        have hg2 : (a :: t).get ⟨m + 1, hj⟩ = t.get ⟨m, hm⟩ := rfl
        rw [hg1, hg2, List.set_cons_succ, List.set_cons_succ]
        exact (ih k m hk hm).cons a

/-- An in-range `listSwap` permutes the list. -/
theorem listSwap_perm (l : Population) (i j : Nat)
    (hi : i < l.length) (hj : j < l.length) : listSwap l i j ~ l := by
  unfold listSwap
  have hdi : l.getD i [] = l.get ⟨i, hi⟩ := by
    rw [List.getD_eq_getElem?_getD, List.getElem?_eq_getElem hi]; rfl
  have hdj : l.getD j [] = l.get ⟨j, hj⟩ := by
    rw [List.getD_eq_getElem?_getD, List.getElem?_eq_getElem hj]; rfl
  rw [hdi, hdj]
  exact set_set_perm l i j hi hj

/-- Every step of the shuffle loop preserves the multiset of genotypes. -/
theorem shuffleGo_perm : ∀ (k : Nat) (l : Population) (r : RNG),
    k < l.length → (shuffleGo k l r).1 ~ l := by
  intro k
  induction k with
  | zero => intro l r _; exact List.Perm.refl l
  | succ i ih =>
    intro l r h
    have hj : r.stream r.pos % (i + 2) < l.length := by
      have hm : r.stream r.pos % (i + 2) < i + 2 :=
        Nat.mod_lt (r.stream r.pos) (by omega)
      omega
    have hswap := listSwap_perm l (i + 1) (r.stream r.pos % (i + 2)) h hj
    have hlen : i < (listSwap l (i + 1) (r.stream r.pos % (i + 2))).length := by
      rw [hswap.length_eq]; omega
    exact (ih _ _ hlen).trans hswap

/-- The modelled `rng.shuffle` returns a permutation of its input. -/
theorem shuffle_perm (l : Population) (r : RNG) : (shuffle l r).1 ~ l := by
  cases l with
  | nil => exact List.Perm.refl _
  | cons a t => exact shuffleGo_perm _ _ r (by simp)

/-! ### Facts about `make_initial_population` -/

/-- On nonnegative rationals, Python's `int` truncation is the floor. -/
theorem truncQ_eq_floor (x : ℚ) (h : 0 ≤ x) : truncQ x = ⌊x⌋ :=
  if_pos h

/-- The built population is a permutation of the unshuffled block list
`n00 × [0,0] ++ n01 × [0,1] ++ n11 × [1,1]`. -/
theorem make_initial_population_perm (N : Nat) (p00 p01 p11 : ℚ) (r : RNG) :
    List.Perm (make_initial_population N p00 p01 p11 r).1
      (List.replicate (truncQ ((N : ℚ) * p00)).toNat [0, 0] ++
        List.replicate (truncQ ((N : ℚ) * p01)).toNat [0, 1] ++
        List.replicate
          ((N : Int) - truncQ ((N : ℚ) * p00) - truncQ ((N : ℚ) * p01)).toNat
          [1, 1]) := by
  unfold make_initial_population
  exact shuffle_perm _ r

/-- The length of the built population, with no hypotheses on the inputs:
the three block lengths, negative block counts clamped to zero exactly as
Python's list repetition does. -/
theorem make_initial_population_length (N : Nat) (p00 p01 p11 : ℚ) (r : RNG) :
    (make_initial_population N p00 p01 p11 r).1.length =
      (truncQ ((N : ℚ) * p00)).toNat + (truncQ ((N : ℚ) * p01)).toNat +
        ((N : Int) - truncQ ((N : ℚ) * p00) - truncQ ((N : ℚ) * p01)).toNat := by
  have h := (make_initial_population_perm N p00 p01 p11 r).length_eq
  simp only [List.length_append, List.length_replicate] at h
  omega

/-- Every genotype the builder ever produces is one of the three literal
genotypes of the source. -/
theorem make_initial_population_mem (N : Nat) (p00 p01 p11 : ℚ) (r : RNG) :
    ∀ g ∈ (make_initial_population N p00 p01 p11 r).1,
      g = [0, 0] ∨ g = [0, 1] ∨ g = [1, 1] := by
  intro g hg
  have hmem := (make_initial_population_perm N p00 p01 p11 r).mem_iff.mp hg
  simp only [List.mem_append] at hmem
  rcases hmem with (h | h) | h
  · exact Or.inl (List.eq_of_mem_replicate h)
  · exact Or.inr (Or.inl (List.eq_of_mem_replicate h))
  · exact Or.inr (Or.inr (List.eq_of_mem_replicate h))

/-! ### Facts about `sample2`, `choice`, `generate_next` -/

/-- An in-range `getD` is a member of the list. -/
theorem getD_mem_of_lt {α : Type _} (l : List α) (i : Nat) (d : α)
    (h : i < l.length) : l.getD i d ∈ l := by
  rw [List.getD_eq_getElem?_getD, List.getElem?_eq_getElem h]
  exact List.getElem_mem h

/-- Both genotypes a successful `sample2` returns come from the input
population. -/
theorem sample2_ok_mem (pop : Population) (g1 g2 : Genotype) (r r' : RNG)
    (h : sample2 pop r = .ok ((g1, g2), r')) : g1 ∈ pop ∧ g2 ∈ pop := by
  unfold sample2 at h
  split at h
  case isTrue hlen =>
    simp only [Except.ok.injEq, Prod.mk.injEq] at h
    obtain ⟨⟨h1, h2⟩, _⟩ := h
    have hpos : 0 < pop.length := by omega
    constructor
    · rw [← h1]
      exact getD_mem_of_lt _ _ _ (by simpa [randbelow] using Nat.mod_lt _ hpos)
    · rw [← h2]
      split
      · exact getD_mem_of_lt _ _ _ (by omega)
      · refine getD_mem_of_lt _ _ _ ?_
        have : (randbelow (pop.length - 1) (randbelow pop.length r).2).1 <
            pop.length - 1 := by
          simp only [randbelow]
          exact Nat.mod_lt _ (by omega)
        omega
  case isFalse => cases h

/-- `sample2` succeeds on every population of length at least two. -/
theorem sample2_ok_exists (pop : Population) (r : RNG)
    (h : 2 ≤ pop.length) :
    ∃ g1 g2 r', sample2 pop r = .ok ((g1, g2), r') := by
  simp only [sample2, if_pos h]
  exact ⟨_, _, _, rfl⟩

/-- A successful `choice` returns a member of the sequence. -/
theorem choice_ok_mem (g : Genotype) (a : Allele) (r r' : RNG)
    (h : choice g r = .ok (a, r')) : a ∈ g := by
  unfold choice at h
  split at h
  case isTrue => cases h
  case isFalse hne =>
    simp only [Except.ok.injEq, Prod.mk.injEq] at h
    obtain ⟨h1, _⟩ := h
    rw [← h1]
    exact getD_mem_of_lt _ _ _ (by simpa [randbelow] using Nat.mod_lt _ (by omega))

/-- `choice` succeeds on every nonempty sequence. -/
theorem choice_ok_exists (g : Genotype) (r : RNG) (hg : g ≠ []) :
    ∃ a r', choice g r = .ok (a, r') := by
  simp only [choice, if_neg (show ¬g.length = 0 by simpa using hg)]
  exact ⟨_, _, rfl⟩

/-- Anatomy of a successful run of the `generate_next` loop: it produces
exactly as many offspring as it was asked for, each offspring is a fresh
two-allele genotype, and each of its alleles occurs in some genotype of
the input population. -/
theorem generateNextGo_ok_spec (pop : Population) :
    ∀ (k : Nat) (r : RNG) (res : Population) (r' : RNG),
      generateNextGo pop k r = .ok (res, r') →
      res.length = k ∧
        ∀ g ∈ res, g.length = 2 ∧ ∀ a ∈ g, ∃ g0 ∈ pop, a ∈ g0 := by
  intro k
  induction k with
  | zero =>
    intro r res r' h
    simp only [generateNextGo, Except.ok.injEq, Prod.mk.injEq] at h
    obtain ⟨h1, _⟩ := h
    subst h1
    simp
  | succ k ih =>
    intro r res r' h
    simp only [generateNextGo] at h
    split at h
    · cases h
    case h_2 x p1 p2 r1 heq1 =>
      split at h
      · cases h
      case h_2 a1 r2 heq2 =>
        split at h
        · cases h
        case h_2 a2 r3 heq3 =>
          split at h
          · cases h
          case h_2 rest r4 heq4 =>
            simp only [Except.ok.injEq, Prod.mk.injEq] at h
            obtain ⟨h1, _⟩ := h
            subst h1
            obtain ⟨hlen, hall⟩ := ih r3 rest r4 heq4
            obtain ⟨hp1, hp2⟩ := sample2_ok_mem pop p1 p2 r r1 heq1
            have ha1 : a1 ∈ p1 := choice_ok_mem p1 a1 r1 r2 heq2
            have ha2 : a2 ∈ p2 := choice_ok_mem p2 a2 r2 r3 heq3
            refine ⟨by simpa using hlen, ?_⟩
            intro g hg
            rcases List.mem_cons.mp hg with rfl | hg
            · refine ⟨rfl, ?_⟩
              intro a ha
              rcases List.mem_cons.mp ha with rfl | ha
              · exact ⟨p1, hp1, ha1⟩
              · rcases List.mem_cons.mp ha with rfl | ha
                · exact ⟨p2, hp2, ha2⟩
                · cases ha
            · exact hall g hg

/-- The `generate_next` loop succeeds whenever the population has at
least two members and no genotype is the empty list. -/
theorem generateNextGo_ok_exists (pop : Population)
    (hlen : 2 ≤ pop.length) (hne : ∀ g ∈ pop, g ≠ []) :
    ∀ (k : Nat) (r : RNG), ∃ res r', generateNextGo pop k r = .ok (res, r') := by
  intro k
  induction k with
  | zero => intro r; exact ⟨[], r, rfl⟩
  | succ k ih =>
    intro r
    obtain ⟨g1, g2, r1, hs⟩ := sample2_ok_exists pop r hlen
    obtain ⟨hm1, hm2⟩ := sample2_ok_mem pop g1 g2 r r1 hs
    obtain ⟨a1, r2, hc1⟩ := choice_ok_exists g1 r1 (hne g1 hm1)
    obtain ⟨a2, r3, hc2⟩ := choice_ok_exists g2 r2 (hne g2 hm2)
    obtain ⟨rest, r4, hrest⟩ := ih r3
    refine ⟨[a1, a2] :: rest, r4, ?_⟩
    simp only [generateNextGo, hs, hc1, hc2, hrest]

/-- Packaging of `generateNextGo_ok_spec` for `generate_next` itself. -/
theorem generate_next_ok_spec (pop res : Population) (r r' : RNG)
    (h : generate_next pop r = .ok (res, r')) :
    res.length = pop.length ∧
      ∀ g ∈ res, g.length = 2 ∧ ∀ a ∈ g, ∃ g0 ∈ pop, a ∈ g0 :=
  generateNextGo_ok_spec pop pop.length r res r' h

/-- Packaging of `generateNextGo_ok_exists` for `generate_next` itself. -/
theorem generate_next_ok_exists (pop : Population) (r : RNG)
    (hlen : 2 ≤ pop.length) (hne : ∀ g ∈ pop, g ≠ []) :
    ∃ res r', generate_next pop r = .ok (res, r') :=
  generateNextGo_ok_exists pop hlen hne pop.length r

/-! ### Facts about `calc_freq0` -/

/-- The frequency statistic is invariant under permutation. -/
theorem calc_freq0_perm (pop pop' : Population) (h : List.Perm pop pop') :
    calc_freq0 pop = calc_freq0 pop' := by
  unfold calc_freq0 zeroAlleles
  rw [h.length_eq, (h.map (fun g => g.count 0)).sum_eq]

/-! ### Floor arithmetic for the builder's block counts -/

/-- Under the spec's preconditions the two truncated block counts are
nonnegative and sum to at most `N`. -/
theorem floor_counts_le (N : Nat) (p00 p01 : ℚ) (h00 : 0 ≤ p00)
    (h01 : 0 ≤ p01) (hsum : p00 + p01 ≤ 1) :
    0 ≤ ⌊(N : ℚ) * p00⌋ ∧ 0 ≤ ⌊(N : ℚ) * p01⌋ ∧
      ⌊(N : ℚ) * p00⌋ + ⌊(N : ℚ) * p01⌋ ≤ (N : Int) := by
  have hN : (0 : ℚ) ≤ (N : ℚ) := Nat.cast_nonneg N
  have ha0 : (0 : ℚ) ≤ (N : ℚ) * p00 := mul_nonneg hN h00
  have hb0 : (0 : ℚ) ≤ (N : ℚ) * p01 := mul_nonneg hN h01
  refine ⟨Int.floor_nonneg.mpr ha0, Int.floor_nonneg.mpr hb0, ?_⟩
  have hc : (N : ℚ) * p00 + (N : ℚ) * p01 ≤ (N : ℚ) := by nlinarith
  have ha := Int.floor_le ((N : ℚ) * p00)
  have hb := Int.floor_le ((N : ℚ) * p01)
  have : ((⌊(N : ℚ) * p00⌋ + ⌊(N : ℚ) * p01⌋ : Int) : ℚ) ≤ ((N : Int) : ℚ) := by
    push_cast
    linarith
  exact_mod_cast this

/-- Under the spec's preconditions the built population has length
exactly `N`. -/
theorem make_initial_population_length_of (N : Nat) (p00 p01 p11 : ℚ)
    (r : RNG) (h00 : 0 ≤ p00) (h01 : 0 ≤ p01) (hsum : p00 + p01 ≤ 1) :
    (make_initial_population N p00 p01 p11 r).1.length = N := by
  have hN : (0 : ℚ) ≤ (N : ℚ) := Nat.cast_nonneg N
  have ha0 : (0 : ℚ) ≤ (N : ℚ) * p00 := mul_nonneg hN h00
  have hb0 : (0 : ℚ) ≤ (N : ℚ) * p01 := mul_nonneg hN h01
  obtain ⟨hfa, hfb, hab⟩ := floor_counts_le N p00 p01 h00 h01 hsum
  rw [make_initial_population_length, truncQ_eq_floor _ ha0,
    truncQ_eq_floor _ hb0]
  omega

/-- Every genotype the builder produces has exactly two alleles. -/
theorem make_initial_population_genotype_len (N : Nat) (p00 p01 p11 : ℚ)
    (r : RNG) :
    ∀ g ∈ (make_initial_population N p00 p01 p11 r).1, g.length = 2 := by
  intro g hg
  rcases make_initial_population_mem N p00 p01 p11 r g hg with h | h | h <;>
    simp [h]

/-! ### Facts about the init and step handlers -/

/-- Anatomy of the init loop: `k` populations, `k` histories, every
population built by the builder, every history a single entry. -/
theorem initGo_spec (N : Nat) (p00 p01 p11 : ℚ) :
    ∀ (k : Nat) (r : RNG),
      (initGo N p00 p01 p11 k r).1.length = k ∧
      (initGo N p00 p01 p11 k r).2.1.length = k ∧
      (∀ p ∈ (initGo N p00 p01 p11 k r).1,
        ∃ r0, p = (make_initial_population N p00 p01 p11 r0).1) ∧
      (∀ h ∈ (initGo N p00 p01 p11 k r).2.1, h.length = 1) := by
  intro k
  induction k with
  | zero => intro r; simp [initGo]
  | succ k ih =>
    intro r
    obtain ⟨h1, h2, h3, h4⟩ := ih (make_initial_population N p00 p01 p11 r).2
    refine ⟨?_, ?_, ?_, ?_⟩
    · simp only [initGo, List.length_cons, h1]
    · simp only [initGo, List.length_cons, h2]
    · simp only [initGo]
      intro p hp
      rcases List.mem_cons.mp hp with rfl | hp
      · exact ⟨r, rfl⟩
      · exact h3 p hp
    · simp only [initGo]
      intro h hh
      rcases List.mem_cons.mp hh with rfl | hh
      · rfl
      · exact h4 h hh

/-- Anatomy of one successful pass of the inner replicate loop: list
lengths are preserved, populations keep their common size and gain
two-allele genotypes, and every history gains exactly one entry. -/
theorem stepGenGo_spec (N m : Nat) :
    ∀ (k : Nat) (pops : List Population) (hists : List (List ℚ)) (r : RNG)
      (pops' : List Population) (hists' : List (List ℚ)) (r' : RNG),
      stepGenGo k pops hists r = .ok (pops', hists', r') →
      pops.length = k → hists.length = k →
      (∀ p ∈ pops, p.length = N) → (∀ h ∈ hists, h.length = m) →
      pops'.length = k ∧ hists'.length = k ∧
        (∀ p ∈ pops', p.length = N ∧ ∀ g ∈ p, g.length = 2) ∧
        (∀ h ∈ hists', h.length = m + 1) := by
  intro k
  induction k with
  | zero =>
    intro pops hists r pops' hists' r' h hp hh _ _
    simp only [stepGenGo, Except.ok.injEq, Prod.mk.injEq] at h
    obtain ⟨h1, h2, _⟩ := h
    subst h1; subst h2
    rw [List.length_eq_zero] at hp hh
    subst hp; subst hh
    simp
  | succ k ih =>
    intro pops hists r pops' hists' r' h hp hh hpN hhm
    match pops, hp with
    | pop :: pops0, hp =>
      simp only [stepGenGo] at h
      split at h
      · cases h
      case h_2 res r1 heq1 =>
        split at h
        · cases h
        case h_2 hist hists0 =>
          split at h
          · cases h
          case h_2 pops2 hists2 r2 heq2 =>
            simp only [Except.ok.injEq, Prod.mk.injEq] at h
            obtain ⟨h1, h2, _⟩ := h
            subst h1; subst h2
            obtain ⟨hres_len, hres_g⟩ :=
              generate_next_ok_spec pop res r r1 heq1
            obtain ⟨k1, k2, k3, k4⟩ := ih pops0 hists0 r1 pops2 hists2 r2 heq2
              (by simpa using hp) (by simpa using hh)
              (fun p hmem => hpN p (List.mem_cons_of_mem pop hmem))
              (fun hq hmem => hhm hq (List.mem_cons_of_mem hist hmem))
            refine ⟨by simp [k1], by simp [k2], ?_, ?_⟩
            · intro p hmem
              rcases List.mem_cons.mp hmem with rfl | hmem
              · exact ⟨hres_len.trans (hpN pop (List.mem_cons_self pop pops0)),
                  fun g hg => (hres_g g hg).1⟩
              · exact k3 p hmem
            · intro hq hmem
              rcases List.mem_cons.mp hmem with rfl | hmem
              · have : hist.length = m :=
                  hhm hist (List.mem_cons_self hist hists0)
                simp [this]
              · exact k4 hq hmem

/-- The inner replicate loop succeeds when both session lists have
exactly `k` entries and every population supports `generate_next`. -/
theorem stepGenGo_ok_exists :
    ∀ (k : Nat) (pops : List Population) (hists : List (List ℚ)) (r : RNG),
      pops.length = k → hists.length = k →
      (∀ p ∈ pops, 2 ≤ p.length ∧ ∀ g ∈ p, g ≠ []) →
      ∃ pops' hists' r', stepGenGo k pops hists r = .ok (pops', hists', r') := by
  intro k
  induction k with
  | zero => intro pops hists r _ _ _; exact ⟨pops, hists, r, rfl⟩
  | succ k ih =>
    intro pops hists r hp hh hgood
    match pops, hists, hp, hh with
    | pop :: pops0, hist :: hists0, hp, hh =>
      obtain ⟨hlen2, hne⟩ := hgood pop (List.mem_cons_self pop pops0)
      obtain ⟨res, r1, hres⟩ := generate_next_ok_exists pop r hlen2 hne
      obtain ⟨pops2, hists2, r2, hrec⟩ := ih pops0 hists0 r1
        (by simpa using hp) (by simpa using hh)
        (fun p hmem => hgood p (List.mem_cons_of_mem pop hmem))
      refine ⟨res :: pops2, (hist ++ [calc_freq0 res]) :: hists2, r2, ?_⟩
      simp only [stepGenGo, hres, hrec]

/-- One step-button press (ten outer passes) from any good state
succeeds, stays good, and advances the shared counter by the pass
count. -/
theorem stepBatchGo_good (N : Nat) (hN : 2 ≤ N) :
    ∀ (k : Nat) (s : SimState) (r : RNG), GoodState N s →
      ∃ s' r', stepBatchGo k s r = .ok (s', r') ∧ GoodState N s' ∧
        s'.generation = s.generation + k := by
  intro k
  induction k with
  | zero => intro s r hs; exact ⟨s, r, rfl, hs, rfl⟩
  | succ k ih =>
    intro s r hs
    obtain ⟨hp, hh, hpop, hhist⟩ := hs
    obtain ⟨pops', hists', r1, hstep⟩ :=
      stepGenGo_ok_exists replicates s.populations s.freq_history r hp hh
        (fun p hmem => ⟨(hpop p hmem).1 ▸ hN,
          fun g hg => by
            have := (hpop p hmem).2 g hg
            intro hgnil
            rw [hgnil] at this
            simp at this⟩)
    obtain ⟨k1, k2, k3, k4⟩ := stepGenGo_spec N (s.generation + 1) replicates
      s.populations s.freq_history r pops' hists' r1 hstep hp hh
      (fun p hmem => (hpop p hmem).1) hhist
    set s1 : SimState :=
      { populations := pops', freq_history := hists',
        generation := s.generation + 1 } with hs1
    have hgood1 : GoodState N s1 := ⟨k1, k2, k3, fun h hmem => k4 h hmem⟩
    obtain ⟨s', r', hrun, hgood', hgen'⟩ := ih s1 r1 hgood1
    refine ⟨s', r', ?_, hgood', by simp [hs1] at hgen'; omega⟩
    simp only [stepBatchGo, hstep]
    exact hrun

/-- A freshly initialized session is good whenever the UI-validated
preconditions hold (`N ≥ 2`, proportions in range, `p00 + p01 ≤ 1`). -/
theorem initState_good (N : Nat) (p00 p01 p11 : ℚ) (r : RNG)
    (h00 : 0 ≤ p00) (h01 : 0 ≤ p01) (hsum : p00 + p01 ≤ 1) :
    GoodState N (initState N p00 p01 p11 r).1 ∧
      (initState N p00 p01 p11 r).1.generation = 0 := by
  obtain ⟨h1, h2, h3, h4⟩ := initGo_spec N p00 p01 p11 replicates r
  refine ⟨⟨h1, h2, ?_, fun h hmem => by rw [h4 h hmem]; rfl⟩, rfl⟩
  intro p hmem
  obtain ⟨r0, rfl⟩ := h3 p hmem
  exact ⟨make_initial_population_length_of N p00 p01 p11 r0 h00 h01 hsum,
    make_initial_population_genotype_len N p00 p01 p11 r0⟩

/-- The step handler from any good state: success, goodness preserved,
counter advanced by ten. -/
theorem stepState_good (N : Nat) (hN : 2 ≤ N) (s : SimState) (r : RNG)
    (hs : GoodState N s) :
    ∃ s' r', stepState s r = .ok (s', r') ∧ GoodState N s' ∧
      s'.generation = s.generation + 10 := by
  have hne : ¬s.populations = [] := by
    intro h
    have := hs.1
    rw [h] at this
    simp [replicates] at this
  simp only [stepState, if_neg hne]
  exact stepBatchGo_good N hN 10 s r hs

/-- Counts are invariant under permutation, for any boolean equality. -/
theorem count_perm_eq {α : Type _} [BEq α] {l₁ l₂ : List α}
    (h : List.Perm l₁ l₂) (a : α) : l₁.count a = l₂.count a := by
  simp only [List.count]
  exact h.countP_eq _

/-- In a population of two-allele genotypes the total number of allele
slots is twice the number of individuals. -/
theorem sum_len_of_two (pop : Population)
    (hg2 : ∀ g ∈ pop, g.length = 2) :
    (pop.map List.length).sum = 2 * pop.length := by
  induction pop with
  | nil => simp
  | cons g t ih =>
    have hg := hg2 g (List.mem_cons_self g t)
    have ht := ih (fun x hx => hg2 x (List.mem_cons_of_mem _ hx))
    simp only [List.map_cons, List.sum_cons, List.length_cons, hg, ht]
    omega

/-! ### The claims -/

/-- C1: for every `N ≥ 1` and proportions `p00`, `p01` in `[0, 1]` with
`p00 + p01 ≤ 1`, `make_initial_population` returns a population of length
exactly `N` containing `⌊N·p00⌋` genotypes `[0,0]`, `⌊N·p01⌋` genotypes
`[0,1]`, and `N - ⌊N·p00⌋ - ⌊N·p01⌋` genotypes `[1,1]`, as a permutation
of that multiset. -/
theorem C1_build_initial_counts (N : Nat) (p00 p01 p11 : ℚ) (r : RNG)
    (hN : 1 ≤ N) (h00 : 0 ≤ p00) (h00le : p00 ≤ 1) (h01 : 0 ≤ p01)
    (h01le : p01 ≤ 1) (hsum : p00 + p01 ≤ 1) :
    (make_initial_population N p00 p01 p11 r).1.length = N ∧
    List.count [0, 0] (make_initial_population N p00 p01 p11 r).1 =
      (⌊(N : ℚ) * p00⌋).toNat ∧
    List.count [0, 1] (make_initial_population N p00 p01 p11 r).1 =
      (⌊(N : ℚ) * p01⌋).toNat ∧
    List.count [1, 1] (make_initial_population N p00 p01 p11 r).1 =
      N - (⌊(N : ℚ) * p00⌋).toNat - (⌊(N : ℚ) * p01⌋).toNat ∧
    List.Perm (make_initial_population N p00 p01 p11 r).1
      (List.replicate (⌊(N : ℚ) * p00⌋).toNat [0, 0] ++
        List.replicate (⌊(N : ℚ) * p01⌋).toNat [0, 1] ++
        List.replicate (N - (⌊(N : ℚ) * p00⌋).toNat - (⌊(N : ℚ) * p01⌋).toNat)
          [1, 1]) := by
  have ha0 : (0 : ℚ) ≤ (N : ℚ) * p00 := mul_nonneg (Nat.cast_nonneg N) h00
  have hb0 : (0 : ℚ) ≤ (N : ℚ) * p01 := mul_nonneg (Nat.cast_nonneg N) h01
  obtain ⟨hfa, hfb, hab⟩ := floor_counts_le N p00 p01 h00 h01 hsum
  have hperm := make_initial_population_perm N p00 p01 p11 r
  rw [truncQ_eq_floor _ ha0, truncQ_eq_floor _ hb0] at hperm
  have h11 : ((N : Int) - ⌊(N : ℚ) * p00⌋ - ⌊(N : ℚ) * p01⌋).toNat =
      N - (⌊(N : ℚ) * p00⌋).toNat - (⌊(N : ℚ) * p01⌋).toNat := by omega
  rw [h11] at hperm
  have hlen := hperm.length_eq
  simp only [List.length_append, List.length_replicate] at hlen
  refine ⟨by omega, ?_, ?_, ?_, hperm⟩
  · have hc := count_perm_eq hperm [0, 0]
    simpa [List.count_append, List.count_replicate] using hc
  · have hc := count_perm_eq hperm [0, 1]
    simpa [List.count_append, List.count_replicate] using hc
  · have hc := count_perm_eq hperm [1, 1]
    simpa [List.count_append, List.count_replicate] using hc

/-- Closed witness for `C1_build_initial_counts` at `N = 3`,
`p00 = p01 = 0`, `p11 = 1`, the all-zero stream. -/
theorem C1_build_initial_counts_witness :
    (make_initial_population 3 0 0 1 rng0).1.length = 3 ∧
    List.count [0, 0] (make_initial_population 3 0 0 1 rng0).1 =
      (⌊(3 : ℚ) * 0⌋).toNat ∧
    List.count [0, 1] (make_initial_population 3 0 0 1 rng0).1 =
      (⌊(3 : ℚ) * 0⌋).toNat ∧
    List.count [1, 1] (make_initial_population 3 0 0 1 rng0).1 =
      3 - (⌊(3 : ℚ) * 0⌋).toNat - (⌊(3 : ℚ) * 0⌋).toNat ∧
    List.Perm (make_initial_population 3 0 0 1 rng0).1
      (List.replicate (⌊(3 : ℚ) * 0⌋).toNat [0, 0] ++
        List.replicate (⌊(3 : ℚ) * 0⌋).toNat [0, 1] ++
        List.replicate (3 - (⌊(3 : ℚ) * 0⌋).toNat - (⌊(3 : ℚ) * 0⌋).toNat)
          [1, 1]) :=
  C1_build_initial_counts 3 0 0 1 rng0 (by decide) (le_refl 0) zero_le_one
    (le_refl 0) zero_le_one (by simp)

/-- C2: for every non-empty population whose genotypes each hold two
alleles, `calc_freq0` is the count of allele-0 occurrences over the
`2·N` allele slots (which is exactly the total number of slots), with no
RNG argument at all; and for the initial population built with `N = 4`,
`p00 = p01 = 1/2`, `p11 = 0` and any RNG, it equals `3/4`. -/
theorem C2_calc_freq0_spec (pop : Population) (r : RNG) (hne : pop ≠ [])
    (hg2 : ∀ g ∈ pop, g.length = 2) :
    calc_freq0 pop = (zeroAlleles pop : ℚ) / (2 * pop.length) ∧
    (pop.map List.length).sum = 2 * pop.length ∧
    calc_freq0 (make_initial_population 4 (1/2) (1/2) 0 r).1 = 3 / 4 := by
  refine ⟨rfl, sum_len_of_two pop hg2, ?_⟩
  · have hperm := make_initial_population_perm 4 (1/2) (1/2) 0 r
    rw [calc_freq0_perm _ _ hperm]
    have e1 : truncQ (((4 : Nat) : ℚ) * (1/2)) = 2 := by norm_num [truncQ]
    have e2 : Int.toNat 2 = 2 := rfl
    rw [e1, e2]
    simp only [calc_freq0, zeroAlleles]
    norm_num

/-- Closed witness for `C2_calc_freq0_spec` at the one-genotype
population `[[0, 0]]` and the all-zero stream. -/
theorem C2_calc_freq0_spec_witness :
    calc_freq0 [[0, 0]] = (zeroAlleles [[0, 0]] : ℚ) / (2 * 1) ∧
    ([[0, 0]].map List.length).sum = 2 * 1 ∧
    calc_freq0 (make_initial_population 4 (1/2) (1/2) 0 rng0).1 = 3 / 4 := by
  have h := C2_calc_freq0_spec [[0, 0]] rng0 (by decide) (by decide)
  simpa using h

/-- Populations surviving a successful inner replicate loop all keep the
common size `N` (no assumptions on list lengths: untouched suffixes are
returned as they were). -/
theorem stepGenGo_ok_lengths (N : Nat) :
    ∀ (k : Nat) (pops : List Population) (hists : List (List ℚ)) (r : RNG)
      (pops' : List Population) (hists' : List (List ℚ)) (r' : RNG),
      stepGenGo k pops hists r = .ok (pops', hists', r') →
      (∀ p ∈ pops, p.length = N) →
      ∀ p ∈ pops', p.length = N := by
  intro k
  induction k with
  | zero =>
    intro pops hists r pops' hists' r' h hN
    simp only [stepGenGo, Except.ok.injEq, Prod.mk.injEq] at h
    obtain ⟨h1, _, _⟩ := h
    subst h1
    exact hN
  | succ k ih =>
    intro pops hists r pops' hists' r' h hN
    cases pops with
    | nil => simp [stepGenGo] at h
    | cons pop pops0 =>
      simp only [stepGenGo] at h
      split at h
      · cases h
      case h_2 res r1 heq1 =>
        split at h
        · cases h
        case h_2 hist hists0 =>
          split at h
          · cases h
          case h_2 pops2 hists2 r2 heq2 =>
            simp only [Except.ok.injEq, Prod.mk.injEq] at h
            obtain ⟨h1, _, _⟩ := h
            subst h1
            intro p hp
            rcases List.mem_cons.mp hp with rfl | hp
            · exact (generate_next_ok_spec pop p r r1 heq1).1.trans
                (hN pop (List.mem_cons_self pop pops0))
            · exact ih pops0 hists0 r1 pops2 hists2 r2 heq2
                (fun q hq => hN q (List.mem_cons_of_mem pop hq)) p hp

/-- Populations surviving a successful outer batch loop all keep the
common size `N`. -/
theorem stepBatchGo_ok_lengths (N : Nat) :
    ∀ (k : Nat) (s : SimState) (r : RNG) (s' : SimState) (r' : RNG),
      stepBatchGo k s r = .ok (s', r') →
      (∀ p ∈ s.populations, p.length = N) →
      ∀ p ∈ s'.populations, p.length = N := by
  intro k
  induction k with
  | zero =>
    intro s r s' r' h hN
    simp only [stepBatchGo, Except.ok.injEq, Prod.mk.injEq] at h
    obtain ⟨h1, _⟩ := h
    subst h1
    exact hN
  | succ k ih =>
    intro s r s' r' h hN
    simp only [stepBatchGo] at h
    split at h
    · cases h
    case h_2 pops hists r1 heq =>
      exact ih _ r1 s' r' h (stepGenGo_ok_lengths N replicates s.populations
        s.freq_history r pops hists r1 heq hN)

/-- Populations surviving a successful step-button press all keep the
common size `N`. -/
theorem stepState_ok_lengths (N : Nat) (s : SimState) (r : RNG)
    (s' : SimState) (r' : RNG) (h : stepState s r = .ok (s', r'))
    (hN : ∀ p ∈ s.populations, p.length = N) :
    ∀ p ∈ s'.populations, p.length = N := by
  unfold stepState at h
  split at h
  · simp only [Except.ok.injEq, Prod.mk.injEq] at h
    obtain ⟨h1, _⟩ := h
    subst h1
    exact hN
  · exact stepBatchGo_ok_lengths N 10 s r s' r' h hN

/-- C4: `generate_next` on any population of at least two two-allele
genotypes succeeds with an output of the same length; any successful
`generate_next` preserves the length exactly; and a step-button press
preserves the property that every replicate population has length `N` —
so every reachable population keeps the initialization size. -/
theorem C4_advance_preserves_length (pop : Population) (r : RNG) (N : Nat)
    (s : SimState) (rs : RNG) (s' : SimState) (rs' : RNG)
    (h2 : 2 ≤ pop.length) (hg : ∀ g ∈ pop, g.length = 2)
    (hstep : stepState s rs = .ok (s', rs'))
    (hN : ∀ p ∈ s.populations, p.length = N) :
    (∃ res r', generate_next pop r = .ok (res, r') ∧ res.length = pop.length) ∧
    (∀ res r', generate_next pop r = .ok (res, r') → res.length = pop.length) ∧
    (∀ p ∈ s'.populations, p.length = N) := by
  refine ⟨?_, ?_, stepState_ok_lengths N s rs s' rs' hstep hN⟩
  · obtain ⟨res, r', hok⟩ := generate_next_ok_exists pop r h2 (fun g hgm => by
      have := hg g hgm
      intro hnil
      rw [hnil] at this
      simp at this)
    exact ⟨res, r', hok, (generate_next_ok_spec pop res r r' hok).1⟩
  · intro res r' hok
    exact (generate_next_ok_spec pop res r r' hok).1

/-- Closed witness for `C4_advance_preserves_length` at the two-genotype
population `[[0,0],[1,1]]` and the empty session state (for which the
step handler is a no-op). -/
theorem C4_advance_preserves_length_witness :
    (∃ res r', generate_next [[0, 0], [1, 1]] rng0 = .ok (res, r') ∧
      res.length = [[0, 0], [1, 1]].length) ∧
    (∀ res r', generate_next [[0, 0], [1, 1]] rng0 = .ok (res, r') →
      res.length = [[0, 0], [1, 1]].length) ∧
    (∀ p ∈ (SimState.mk [] [] 0).populations, p.length = 2) :=
  by
    have h := C4_advance_preserves_length [[0, 0], [1, 1]] rng0 2
      (SimState.mk [] [] 0) rng0 (SimState.mk [] [] 0) rng0
      (by decide) (by decide) rfl (by simp)
    exact ⟨h.1, h.2.1, by simp⟩

/-- C5: with identical seed (identical underlying RNG stream), size and
proportions, two runs — initialize, then the same number of step-button
batches — produce identical results, in particular identical
frequency-history tables, replicate by replicate. -/
theorem C5_two_run_determinism (s1 s2 : Nat → Nat) (N : Nat)
    (p00 p01 p11 : ℚ) (b : Nat) (hstream : ∀ n, s1 n = s2 n) :
    runSim s1 N p00 p01 p11 b = runSim s2 N p00 p01 p11 b ∧
    (runSim s1 N p00 p01 p11 b).map SimState.freq_history =
      (runSim s2 N p00 p01 p11 b).map SimState.freq_history := by
  have hs : s1 = s2 := funext hstream
  subst hs
  exact ⟨rfl, rfl⟩

/-- Closed witness for `C5_two_run_determinism`: two copies of the
all-zero stream, `N = 2`, default-like proportions, three batches. -/
theorem C5_two_run_determinism_witness :
    runSim (fun _ => 0) 2 0 0 1 3 = runSim (fun _ => 0) 2 0 0 1 3 ∧
    (runSim (fun _ => 0) 2 0 0 1 3).map SimState.freq_history =
      (runSim (fun _ => 0) 2 0 0 1 3).map SimState.freq_history :=
  C5_two_run_determinism (fun _ => 0) (fun _ => 0) 2 0 0 1 3 (fun _ => rfl)

/-- C6 counterexample: the claim "`generate_next` fails if and only if
the input population has length `< 2`" is false at the empty population:
its length `0` is `< 2`, yet the call succeeds and returns the empty next
generation (the Python loop body never runs). -/
theorem C6_counterexample :
    ([] : Population).length < 2 ∧
      generate_next ([] : Population) rng0 = .ok ([], rng0) :=
  ⟨by decide, rfl⟩

/-- C6 (amended): for populations whose genotypes each hold two alleles,
`generate_next` fails (with the `ValueError` that models the sampling
error) if and only if the population length is exactly `1`; the empty
population and every population of length at least `2` succeed. -/
theorem C6_amended_error_iff_length_one (pop : Population) (r : RNG)
    (hg : ∀ g ∈ pop, g.length = 2) :
    (∃ e, generate_next pop r = .error e) ↔ pop.length = 1 := by
  constructor
  · rintro ⟨e, he⟩
    by_contra hne
    rcases Nat.lt_or_ge pop.length 2 with hlt | hge
    · have h0 : pop.length = 0 := by omega
      rw [List.length_eq_zero] at h0
      subst h0
      simp [generate_next, generateNextGo] at he
    · obtain ⟨res, r', hok⟩ := generate_next_ok_exists pop r hge
        (fun g hgm => by
          have := hg g hgm
          intro hnil
          rw [hnil] at this
          simp at this)
      rw [hok] at he
      cases he
  · intro h1
    match pop, h1 with
    | [g], _ => exact ⟨.valueError, rfl⟩

/-- Closed witness for `C6_amended_error_iff_length_one` at the
one-genotype population `[[0, 0]]`. -/
theorem C6_amended_error_iff_length_one_witness :
    (∃ e, generate_next [[0, 0]] rng0 = .error e) ↔
      ([[0, 0]] : Population).length = 1 :=
  C6_amended_error_iff_length_one [[0, 0]] rng0 (by decide)

/-- C7 counterexample: the claim that `make_initial_population` rejects
invalid inputs with an error before returning is false: at `N = 0 < 1` it
returns the empty population normally, and at `p00 = p01 = 1` (sum `> 1`,
derived `n11 < 0`) it returns a 4-genotype population normally; the
source has no validation or error path at all. -/
theorem C7_counterexample :
    (make_initial_population 0 (1/2) (1/2) 0 rng0).1 = [] ∧
    (make_initial_population 2 1 1 0 rng0).1.length = 4 := by
  constructor
  · rw [← List.length_eq_zero, make_initial_population_length]
    norm_num [truncQ]
  · rw [make_initial_population_length]
    norm_num [truncQ]
    decide

/-- C7 (amended): `make_initial_population` performs no validation and
never raises: it is a total function and, for every input — `N < 1`,
proportions outside `[0, 1]`, or negative derived `n11` included — it
returns a population whose length is the sum of the three (clamped)
block counts. -/
theorem C7_amended_no_validation (N : Nat) (p00 p01 p11 : ℚ) (r : RNG) :
    (make_initial_population N p00 p01 p11 r).1.length =
      (truncQ ((N : ℚ) * p00)).toNat + (truncQ ((N : ℚ) * p01)).toNat +
        ((N : Int) - truncQ ((N : ℚ) * p00) - truncQ ((N : ℚ) * p01)).toNat :=
  make_initial_population_length N p00 p01 p11 r

/-- C8 counterexample: the claim that with `p00 + p01 > 1` the source
returns a population *shorter* than `N` is false at `N = 2`,
`p00 = p01 = 1`: the derived `n11` is negative, no error is raised, and
the returned population has length `4`, strictly *longer* than `N = 2`. -/
theorem C8_counterexample :
    ((1 : ℚ) + 1 > 1) ∧
    (2 : Int) - truncQ ((2 : ℚ) * 1) - truncQ ((2 : ℚ) * 1) < 0 ∧
    (make_initial_population 2 1 1 0 rng0).1.length = 4 ∧
    ¬(make_initial_population 2 1 1 0 rng0).1.length < 2 := by
  have hlen : (make_initial_population 2 1 1 0 rng0).1.length = 4 := by
    rw [make_initial_population_length]
    norm_num [truncQ]
    decide
  refine ⟨by norm_num, by norm_num [truncQ], hlen, ?_⟩
  rw [hlen]
  decide

/-- C8 (amended): whenever the derived `n11 = N - n00 - n01` is negative
(with nonnegative proportions, e.g. when `p00 + p01 > 1` loses less to
truncation than the excess), `make_initial_population` raises no error
and returns a population of length `n00 + n01`, which is strictly
*longer* than `N`. -/
theorem C8_amended_longer_population (N : Nat) (p00 p01 p11 : ℚ) (r : RNG)
    (h00 : 0 ≤ p00) (h01 : 0 ≤ p01)
    (hneg : (N : Int) - truncQ ((N : ℚ) * p00) - truncQ ((N : ℚ) * p01) < 0) :
    (make_initial_population N p00 p01 p11 r).1.length =
      (truncQ ((N : ℚ) * p00)).toNat + (truncQ ((N : ℚ) * p01)).toNat ∧
    N < (make_initial_population N p00 p01 p11 r).1.length := by
  have ha0 : (0 : ℚ) ≤ (N : ℚ) * p00 := mul_nonneg (Nat.cast_nonneg N) h00
  have hb0 : (0 : ℚ) ≤ (N : ℚ) * p01 := mul_nonneg (Nat.cast_nonneg N) h01
  have hfa : 0 ≤ truncQ ((N : ℚ) * p00) := by
    rw [truncQ_eq_floor _ ha0]
    exact Int.floor_nonneg.mpr ha0
  have hfb : 0 ≤ truncQ ((N : ℚ) * p01) := by
    rw [truncQ_eq_floor _ hb0]
    exact Int.floor_nonneg.mpr hb0
  rw [make_initial_population_length]
  constructor <;> omega

/-- Closed witness for `C8_amended_longer_population` at `N = 2`,
`p00 = p01 = 1`. -/
theorem C8_amended_longer_population_witness :
    (make_initial_population 2 1 1 0 rng0).1.length =
      (truncQ ((2 : ℚ) * 1)).toNat + (truncQ ((2 : ℚ) * 1)).toNat ∧
    2 < (make_initial_population 2 1 1 0 rng0).1.length :=
  C8_amended_longer_population 2 1 1 0 rng0 zero_le_one zero_le_one
    (by norm_num [truncQ])

/-- C9: allele values are always 0 or 1 — the builder only constructs
genotypes `[0,0]`, `[0,1]`, `[1,1]` (for any parameters and any RNG), and
`generate_next` only copies allele values from its input, so the
predicate is preserved by initialization and every generation advance. -/
theorem C9_alleles_binary (N : Nat) (p00 p01 p11 : ℚ) (r : RNG)
    (pop res : Population) (r2 r' : RNG)
    (hpop : ∀ g ∈ pop, ∀ a ∈ g, a = 0 ∨ a = 1)
    (hok : generate_next pop r2 = .ok (res, r')) :
    (∀ g ∈ (make_initial_population N p00 p01 p11 r).1,
      ∀ a ∈ g, a = 0 ∨ a = 1) ∧
    (∀ g ∈ res, ∀ a ∈ g, a = 0 ∨ a = 1) := by
  constructor
  · intro g hg a ha
    rcases make_initial_population_mem N p00 p01 p11 r g hg with rfl | rfl | rfl
    · simp at ha
      exact Or.inl ha
    · simp at ha
      exact ha
    · simp at ha
      exact Or.inr ha
  · intro g hg a ha
    obtain ⟨-, hspec⟩ := generate_next_ok_spec pop res r2 r' hok
    obtain ⟨-, hsub⟩ := hspec g hg
    obtain ⟨g0, hg0, hag0⟩ := hsub a ha
    exact hpop g0 hg0 a hag0

/-- Closed witness for `C9_alleles_binary`: builder at `N = 2`, advance
on `[[0,0],[1,1]]` with the all-zero stream, whose offspring are
`[[0,1],[0,1]]`. -/
theorem C9_alleles_binary_witness :
    (∀ g ∈ (make_initial_population 2 0 0 1 rng0).1,
      ∀ a ∈ g, a = 0 ∨ a = 1) ∧
    (∀ g ∈ [[0, 1], [0, 1]], ∀ a ∈ g, a = 0 ∨ a = 1) :=
  C9_alleles_binary 2 0 0 1 rng0 [[0, 0], [1, 1]] [[0, 1], [0, 1]] rng0
    { stream := fun _ => 0, pos := 8 } (by decide) rfl

/-- In a fixated population (every allele the same value `v`, genotypes
of two alleles) the zero-allele count is `2` or `0` per individual. -/
theorem zeroAlleles_const (v : Allele) :
    ∀ (p : Population), (∀ g ∈ p, g.length = 2) →
      (∀ g ∈ p, ∀ a ∈ g, a = v) →
      zeroAlleles p = (if v = 0 then 2 else 0) * p.length := by
  intro p
  induction p with
  | nil => simp [zeroAlleles]
  | cons g t ih =>
    intro hg hv
    have hgl := hg g (List.mem_cons_self g t)
    have ht := ih (fun x hx => hg x (List.mem_cons_of_mem _ hx))
      (fun x hx => hv x (List.mem_cons_of_mem _ hx))
    have hc : g.count 0 = if v = 0 then 2 else 0 := by
      match g, hgl with
      | [a, b], _ =>
        have ha : a = v := hv [a, b] (List.mem_cons_self _ t) a (by simp)
        have hb : b = v := hv [a, b] (List.mem_cons_self _ t) b (by simp)
        rw [ha, hb]
        by_cases hv0 : v = 0
        · simp [hv0, List.count_cons]
        · simp [List.count_cons, hv0]
    have hz : zeroAlleles (g :: t) = g.count 0 + zeroAlleles t := by
      simp [zeroAlleles]
    rw [hz, hc, ht]
    by_cases hv0 : v = 0 <;> simp [hv0, List.length_cons, Nat.mul_succ] <;> omega

/-- C10: fixation is absorbing — on a fixated population of length at
least two (all alleles equal to `v`, two alleles each), `generate_next`
succeeds for every RNG state, every offspring allele equals `v`, and the
allele-0 frequency is unchanged. -/
theorem C10_fixation_absorbing (pop : Population) (v : Allele) (r : RNG)
    (h2 : 2 ≤ pop.length) (hg : ∀ g ∈ pop, g.length = 2)
    (hv : ∀ g ∈ pop, ∀ a ∈ g, a = v) :
    ∃ res r', generate_next pop r = .ok (res, r') ∧
      (∀ g ∈ res, ∀ a ∈ g, a = v) ∧ calc_freq0 res = calc_freq0 pop := by
  obtain ⟨res, r', hok⟩ := generate_next_ok_exists pop r h2 (fun g hgm => by
    have := hg g hgm
    intro hnil
    rw [hnil] at this
    simp at this)
  obtain ⟨hlen, hspec⟩ := generate_next_ok_spec pop res r r' hok
  have hg2 : ∀ g ∈ res, g.length = 2 := fun g hgm => (hspec g hgm).1
  have hvres : ∀ g ∈ res, ∀ a ∈ g, a = v := by
    intro g hgm a ha
    obtain ⟨-, hsub⟩ := hspec g hgm
    obtain ⟨g0, hg0, hag0⟩ := hsub a ha
    exact hv g0 hg0 a hag0
  refine ⟨res, r', hok, hvres, ?_⟩
  simp only [calc_freq0]
  rw [zeroAlleles_const v res hg2 hvres, zeroAlleles_const v pop hg hv, hlen]

/-- Closed witness for `C10_fixation_absorbing` on the fixated
population `[[0,0],[0,0]]`. -/
theorem C10_fixation_absorbing_witness :
    ∃ res r', generate_next [[0, 0], [0, 0]] rng0 = .ok (res, r') ∧
      (∀ g ∈ res, ∀ a ∈ g, a = 0) ∧
      calc_freq0 res = calc_freq0 [[0, 0], [0, 0]] :=
  C10_fixation_absorbing [[0, 0], [0, 0]] 0 rng0 (by decide) (by decide)
    (by decide)

/-- C3: after initialization every history has one entry (counter `0`);
any successful step-button press from a good state yields a good state,
so every history has length `generation + 1`; and concretely, one press
on a freshly initialized session leaves the counter at `10`, ten
histories, each with exactly `11` entries. -/
theorem C3_history_matches_generation (N : Nat) (p00 p01 p11 : ℚ)
    (hN : 2 ≤ N) (h00 : 0 ≤ p00) (h00le : p00 ≤ 1) (h01 : 0 ≤ p01)
    (h01le : p01 ≤ 1) (hsum : p00 + p01 ≤ 1) :
    (∀ r : RNG, ∀ h ∈ (initState N p00 p01 p11 r).1.freq_history,
      h.length = (initState N p00 p01 p11 r).1.generation + 1) ∧
    (∀ (s : SimState) (r : RNG) (s' : SimState) (r' : RNG), GoodState N s →
      stepState s r = .ok (s', r') →
      GoodState N s' ∧ ∀ h ∈ s'.freq_history, h.length = s'.generation + 1) ∧
    (∀ r : RNG, ∃ s1 r1,
      stepState (initState N p00 p01 p11 r).1 (initState N p00 p01 p11 r).2 =
        .ok (s1, r1) ∧ s1.generation = 10 ∧
      s1.freq_history.length = replicates ∧
      ∀ h ∈ s1.freq_history, h.length = 11) := by
  refine ⟨?_, ?_, ?_⟩
  · intro r
    exact ((initState_good N p00 p01 p11 r h00 h01 hsum).1).2.2.2
  · intro s r s' r' hgood hstep
    obtain ⟨s2, r2, heq, hgood2, _⟩ := stepState_good N hN s r hgood
    rw [heq] at hstep
    simp only [Except.ok.injEq, Prod.mk.injEq] at hstep
    obtain ⟨h1, _⟩ := hstep
    subst h1
    exact ⟨hgood2, hgood2.2.2.2⟩
  · intro r
    obtain ⟨hgood0, hgen0⟩ := initState_good N p00 p01 p11 r h00 h01 hsum
    obtain ⟨s1, r1, heq, hgood1, hgen1⟩ :=
      stepState_good N hN (initState N p00 p01 p11 r).1
        (initState N p00 p01 p11 r).2 hgood0
    refine ⟨s1, r1, heq, ?_, hgood1.2.1, ?_⟩
    · rw [hgen1, hgen0]
    · intro h hmem
      have := hgood1.2.2.2 h hmem
      rw [this, hgen1, hgen0]

/-- Closed witness for `C3_history_matches_generation` at `N = 2`,
`p00 = p01 = 0`, `p11 = 1`. -/
theorem C3_history_matches_generation_witness :
    (∀ r : RNG, ∀ h ∈ (initState 2 0 0 1 r).1.freq_history,
      h.length = (initState 2 0 0 1 r).1.generation + 1) ∧
    (∀ (s : SimState) (r : RNG) (s' : SimState) (r' : RNG), GoodState 2 s →
      stepState s r = .ok (s', r') →
      GoodState 2 s' ∧ ∀ h ∈ s'.freq_history, h.length = s'.generation + 1) ∧
    (∀ r : RNG, ∃ s1 r1,
      stepState (initState 2 0 0 1 r).1 (initState 2 0 0 1 r).2 =
        .ok (s1, r1) ∧ s1.generation = 10 ∧
      s1.freq_history.length = replicates ∧
      ∀ h ∈ s1.freq_history, h.length = 11) :=
  C3_history_matches_generation 2 0 0 1 (by decide) (le_refl 0) zero_le_one
    (le_refl 0) zero_le_one (by simp)
